import Mathlib

/-!
Shallow embedding of the `rufus` virtual machine and assembler.

Source: `src/main.rs` (instruction codec and `Machine`) and `src/asm.rs`
(two-pass assembler).  Machine words are 32-bit unsigned integers and
addresses are 16-bit unsigned integers; both are modelled as `Nat` with
explicit `% 2^32` / `% 2^16` / `% 2^8` reductions exactly where the Rust
code performs an `as` cast or a fixed-width arithmetic operation.
Fixed-width arithmetic (`+`, unary negation) is modelled with wrapping
(two's-complement) semantics.  Fallible operations (`assert`, `unwrap`,
`todo!`) are modelled with `Option` / `Except`.
-/

namespace Rufus

/-- Reserved address: program counter (`pub const PC: Address = 0x0`). -/
def PC : Nat := 0x0

/-- Reserved address: output strobe flag (`pub const WRITING: Address = 0xFFFE`). -/
def WRITING : Nat := 0xFFFE

/-- Reserved address: output data byte (`pub const DATA: Address = 0xFFFF`). -/
def DATA : Nat := 0xFFFF

/-! ### Big-endian byte access on a 32-bit word

`u32::to_be_bytes` of a word `w` is `[byte0 w, byte1 w, byte2 w, byte3 w]`
and `u32::from_be_bytes [a, b, c, d]` is `fromBeBytes a b c d`. -/

/-- Most significant byte of a 32-bit word (`w.to_be_bytes()[0]`). -/
def byte0 (w : Nat) : Nat := w / 16777216 % 256

/-- Second byte of a 32-bit word (`w.to_be_bytes()[1]`). -/
def byte1 (w : Nat) : Nat := w / 65536 % 256

/-- Third byte of a 32-bit word (`w.to_be_bytes()[2]`). -/
def byte2 (w : Nat) : Nat := w / 256 % 256

/-- Least significant byte of a 32-bit word (`w.to_be_bytes()[3]`). -/
def byte3 (w : Nat) : Nat := w % 256

/-- `u32::from_be_bytes([a, b, c, d])` for byte values `a b c d`. -/
def fromBeBytes (a b c d : Nat) : Nat := a * 16777216 + b * 65536 + c * 256 + d

/-! ### Instruction records and their codecs

One structure per instruction kind, mirroring the `struct`s of `main.rs`.
`to_bytes` returns the single 32-bit word of the `[u32; 1]` encoding;
`from_bytes` checks the `assert_eq!(bytes[0], opcode)` guard and returns
`none` where the Rust code would panic (format violation). -/

structure ZeroPageAdd where
  lhs : Nat
  rhs : Nat
  out : Nat
deriving DecidableEq, Repr

namespace ZeroPageAdd

def opcode : Nat := 0b00000000

def to_bytes (i : ZeroPageAdd) : Nat := fromBeBytes opcode i.lhs i.rhs i.out

def from_bytes (w : Nat) : Option ZeroPageAdd :=
  if byte0 w = opcode then some ⟨byte1 w, byte2 w, byte3 w⟩ else none

end ZeroPageAdd

structure ZeroPageNegate where
  input : Nat
  out : Nat
deriving DecidableEq, Repr

namespace ZeroPageNegate

def opcode : Nat := 0b00000001

def to_bytes (i : ZeroPageNegate) : Nat := fromBeBytes opcode i.input i.out 0

def from_bytes (w : Nat) : Option ZeroPageNegate :=
  if byte0 w = opcode then some ⟨byte1 w, byte2 w⟩ else none

end ZeroPageNegate

structure ZeroPageAnd where
  lhs : Nat
  rhs : Nat
  out : Nat
deriving DecidableEq, Repr

namespace ZeroPageAnd

def opcode : Nat := 0b00000010

def to_bytes (i : ZeroPageAnd) : Nat := fromBeBytes opcode i.lhs i.rhs i.out

def from_bytes (w : Nat) : Option ZeroPageAnd :=
  if byte0 w = opcode then some ⟨byte1 w, byte2 w, byte3 w⟩ else none

end ZeroPageAnd

structure ZeroPageOr where
  lhs : Nat
  rhs : Nat
  out : Nat
deriving DecidableEq, Repr

namespace ZeroPageOr

def opcode : Nat := 0b00000100

def to_bytes (i : ZeroPageOr) : Nat := fromBeBytes opcode i.lhs i.rhs i.out

def from_bytes (w : Nat) : Option ZeroPageOr :=
  if byte0 w = opcode then some ⟨byte1 w, byte2 w, byte3 w⟩ else none

end ZeroPageOr

structure ZeroPageXor where
  lhs : Nat
  rhs : Nat
  out : Nat
deriving DecidableEq, Repr

namespace ZeroPageXor

def opcode : Nat := 0b00000101

def to_bytes (i : ZeroPageXor) : Nat := fromBeBytes opcode i.lhs i.rhs i.out

def from_bytes (w : Nat) : Option ZeroPageXor :=
  if byte0 w = opcode then some ⟨byte1 w, byte2 w, byte3 w⟩ else none

end ZeroPageXor

structure ZeroPageLoad where
  from' : Nat
  to' : Nat
deriving DecidableEq, Repr

namespace ZeroPageLoad

def opcode : Nat := 0b00000110

/-- `from` is a `u16` packed little-endian into bytes 1 and 2. -/
def to_bytes (i : ZeroPageLoad) : Nat :=
  fromBeBytes opcode (i.from' % 256) (i.from' / 256 % 256) i.to'

def from_bytes (w : Nat) : Option ZeroPageLoad :=
  if byte0 w = opcode then some ⟨byte1 w + byte2 w * 256, byte3 w⟩ else none

end ZeroPageLoad

structure ZeroPageStore where
  from' : Nat
  to' : Nat
deriving DecidableEq, Repr

namespace ZeroPageStore

def opcode : Nat := 0b00001001

/-- `to` is a `u16` packed little-endian into bytes 2 and 3. -/
def to_bytes (i : ZeroPageStore) : Nat :=
  fromBeBytes opcode i.from' (i.to' % 256) (i.to' / 256 % 256)

def from_bytes (w : Nat) : Option ZeroPageStore :=
  if byte0 w = opcode then some ⟨byte1 w, byte2 w + byte3 w * 256⟩ else none

end ZeroPageStore

structure ZeroPageImmediateLoad where
  addr : Nat
  imm : Nat
deriving DecidableEq, Repr

namespace ZeroPageImmediateLoad

def opcode : Nat := 0b00001010

/-- `imm` is a `u16` packed little-endian into bytes 2 and 3. -/
def to_bytes (i : ZeroPageImmediateLoad) : Nat :=
  fromBeBytes opcode i.addr (i.imm % 256) (i.imm / 256 % 256)

def from_bytes (w : Nat) : Option ZeroPageImmediateLoad :=
  if byte0 w = opcode then some ⟨byte1 w, byte2 w + byte3 w * 256⟩ else none

end ZeroPageImmediateLoad

structure ZeroPageLoadIfPos where
  cond : Nat
  from' : Nat
  to' : Nat
deriving DecidableEq, Repr

namespace ZeroPageLoadIfPos

def opcode : Nat := 0b00001100

def to_bytes (i : ZeroPageLoadIfPos) : Nat := fromBeBytes opcode i.cond i.from' i.to'

def from_bytes (w : Nat) : Option ZeroPageLoadIfPos :=
  if byte0 w = opcode then some ⟨byte1 w, byte2 w, byte3 w⟩ else none

end ZeroPageLoadIfPos

/-! ### Digit-extraction lemmas for the big-endian packing -/

theorem byte0_fromBeBytes (a b c d : Nat) (ha : a < 256) (hb : b < 256)
    (hc : c < 256) (hd : d < 256) : byte0 (fromBeBytes a b c d) = a := by
  unfold byte0 fromBeBytes; omega

theorem byte1_fromBeBytes (a b c d : Nat) (ha : a < 256) (hb : b < 256)
    (hc : c < 256) (hd : d < 256) : byte1 (fromBeBytes a b c d) = b := by
  unfold byte1 fromBeBytes; omega

theorem byte2_fromBeBytes (a b c d : Nat) (ha : a < 256) (hb : b < 256)
    (hc : c < 256) (hd : d < 256) : byte2 (fromBeBytes a b c d) = c := by
  unfold byte2 fromBeBytes; omega

theorem byte3_fromBeBytes (a b c d : Nat) (ha : a < 256) (hb : b < 256)
    (hc : c < 256) (hd : d < 256) : byte3 (fromBeBytes a b c d) = d := by
  unfold byte3 fromBeBytes; omega

/-- C1: for every one of the nine instruction kinds and every operand record
whose fields lie within their field widths (`u8` fields below 256, `u16`
fields below 65536), decoding the single 32-bit word produced by encoding
returns the original record: `from_bytes (to_bytes x) = some x`. -/
theorem C1_decode_encode_roundtrip :
    (∀ x : ZeroPageAdd, x.lhs < 256 → x.rhs < 256 → x.out < 256 →
      ZeroPageAdd.from_bytes x.to_bytes = some x) ∧
    (∀ x : ZeroPageNegate, x.input < 256 → x.out < 256 →
      ZeroPageNegate.from_bytes x.to_bytes = some x) ∧
    (∀ x : ZeroPageAnd, x.lhs < 256 → x.rhs < 256 → x.out < 256 →
      ZeroPageAnd.from_bytes x.to_bytes = some x) ∧
    (∀ x : ZeroPageOr, x.lhs < 256 → x.rhs < 256 → x.out < 256 →
      ZeroPageOr.from_bytes x.to_bytes = some x) ∧
    (∀ x : ZeroPageXor, x.lhs < 256 → x.rhs < 256 → x.out < 256 →
      ZeroPageXor.from_bytes x.to_bytes = some x) ∧
    (∀ x : ZeroPageLoad, x.from' < 65536 → x.to' < 256 →
      ZeroPageLoad.from_bytes x.to_bytes = some x) ∧
    (∀ x : ZeroPageStore, x.from' < 256 → x.to' < 65536 →
      ZeroPageStore.from_bytes x.to_bytes = some x) ∧
    (∀ x : ZeroPageImmediateLoad, x.addr < 256 → x.imm < 65536 →
      ZeroPageImmediateLoad.from_bytes x.to_bytes = some x) ∧
    (∀ x : ZeroPageLoadIfPos, x.cond < 256 → x.from' < 256 → x.to' < 256 →
      ZeroPageLoadIfPos.from_bytes x.to_bytes = some x) := by
  refine ⟨?_, ?_, ?_, ?_, ?_, ?_, ?_, ?_, ?_⟩
  · intro x h1 h2 h3
    simp only [ZeroPageAdd.to_bytes, ZeroPageAdd.from_bytes, ZeroPageAdd.opcode]
    rw [byte0_fromBeBytes, byte1_fromBeBytes, byte2_fromBeBytes, byte3_fromBeBytes]
    · rw [if_pos rfl]
    all_goals omega
  · intro x h1 h2
    simp only [ZeroPageNegate.to_bytes, ZeroPageNegate.from_bytes, ZeroPageNegate.opcode]
    rw [byte0_fromBeBytes, byte1_fromBeBytes, byte2_fromBeBytes]
    · rw [if_pos rfl]
    all_goals omega
  · intro x h1 h2 h3
    simp only [ZeroPageAnd.to_bytes, ZeroPageAnd.from_bytes, ZeroPageAnd.opcode]
    rw [byte0_fromBeBytes, byte1_fromBeBytes, byte2_fromBeBytes, byte3_fromBeBytes]
    · rw [if_pos rfl]
    all_goals omega
  · intro x h1 h2 h3
    simp only [ZeroPageOr.to_bytes, ZeroPageOr.from_bytes, ZeroPageOr.opcode]
    rw [byte0_fromBeBytes, byte1_fromBeBytes, byte2_fromBeBytes, byte3_fromBeBytes]
    · rw [if_pos rfl]
    all_goals omega
  · intro x h1 h2 h3
    simp only [ZeroPageXor.to_bytes, ZeroPageXor.from_bytes, ZeroPageXor.opcode]
    rw [byte0_fromBeBytes, byte1_fromBeBytes, byte2_fromBeBytes, byte3_fromBeBytes]
    · rw [if_pos rfl]
    all_goals omega
  · intro x h1 h2
    simp only [ZeroPageLoad.to_bytes, ZeroPageLoad.from_bytes, ZeroPageLoad.opcode]
    rw [byte0_fromBeBytes, byte1_fromBeBytes, byte2_fromBeBytes, byte3_fromBeBytes]
    · rw [if_pos rfl]
      have hle : x.from' % 256 + x.from' / 256 % 256 * 256 = x.from' := by omega
      rw [hle]
    all_goals omega
  · intro x h1 h2
    simp only [ZeroPageStore.to_bytes, ZeroPageStore.from_bytes, ZeroPageStore.opcode]
    rw [byte0_fromBeBytes, byte1_fromBeBytes, byte2_fromBeBytes, byte3_fromBeBytes]
    · rw [if_pos rfl]
      have hle : x.to' % 256 + x.to' / 256 % 256 * 256 = x.to' := by omega
      rw [hle]
    all_goals omega
  · intro x h1 h2
    simp only [ZeroPageImmediateLoad.to_bytes, ZeroPageImmediateLoad.from_bytes,
      ZeroPageImmediateLoad.opcode]
    rw [byte0_fromBeBytes, byte1_fromBeBytes, byte2_fromBeBytes, byte3_fromBeBytes]
    · rw [if_pos rfl]
      have hle : x.imm % 256 + x.imm / 256 % 256 * 256 = x.imm := by omega
      rw [hle]
    all_goals omega
  · intro x h1 h2 h3
    simp only [ZeroPageLoadIfPos.to_bytes, ZeroPageLoadIfPos.from_bytes,
      ZeroPageLoadIfPos.opcode]
    rw [byte0_fromBeBytes, byte1_fromBeBytes, byte2_fromBeBytes, byte3_fromBeBytes]
    · rw [if_pos rfl]
    all_goals omega

/-- Witness for C1: the round-trip at concrete in-range operands for each of
the nine instruction kinds. -/
theorem C1_decode_encode_roundtrip_witness :
    ZeroPageAdd.from_bytes (ZeroPageAdd.to_bytes ⟨1, 2, 3⟩) = some ⟨1, 2, 3⟩ ∧
    ZeroPageNegate.from_bytes (ZeroPageNegate.to_bytes ⟨4, 5⟩) = some ⟨4, 5⟩ ∧
    ZeroPageAnd.from_bytes (ZeroPageAnd.to_bytes ⟨6, 7, 8⟩) = some ⟨6, 7, 8⟩ ∧
    ZeroPageOr.from_bytes (ZeroPageOr.to_bytes ⟨9, 10, 11⟩) = some ⟨9, 10, 11⟩ ∧
    ZeroPageXor.from_bytes (ZeroPageXor.to_bytes ⟨12, 13, 14⟩) = some ⟨12, 13, 14⟩ ∧
    ZeroPageLoad.from_bytes (ZeroPageLoad.to_bytes ⟨65535, 15⟩) = some ⟨65535, 15⟩ ∧
    ZeroPageStore.from_bytes (ZeroPageStore.to_bytes ⟨16, 65534⟩) = some ⟨16, 65534⟩ ∧
    ZeroPageImmediateLoad.from_bytes (ZeroPageImmediateLoad.to_bytes ⟨17, 4660⟩) =
      some ⟨17, 4660⟩ ∧
    ZeroPageLoadIfPos.from_bytes (ZeroPageLoadIfPos.to_bytes ⟨18, 19, 20⟩) = some ⟨18, 19, 20⟩ :=
  ⟨C1_decode_encode_roundtrip.1 ⟨1, 2, 3⟩ (by decide) (by decide) (by decide),
   C1_decode_encode_roundtrip.2.1 ⟨4, 5⟩ (by decide) (by decide),
   C1_decode_encode_roundtrip.2.2.1 ⟨6, 7, 8⟩ (by decide) (by decide) (by decide),
   C1_decode_encode_roundtrip.2.2.2.1 ⟨9, 10, 11⟩ (by decide) (by decide) (by decide),
   C1_decode_encode_roundtrip.2.2.2.2.1 ⟨12, 13, 14⟩ (by decide) (by decide) (by decide),
   C1_decode_encode_roundtrip.2.2.2.2.2.1 ⟨65535, 15⟩ (by decide) (by decide),
   C1_decode_encode_roundtrip.2.2.2.2.2.2.1 ⟨16, 65534⟩ (by decide) (by decide),
   C1_decode_encode_roundtrip.2.2.2.2.2.2.2.1 ⟨17, 4660⟩ (by decide) (by decide),
   C1_decode_encode_roundtrip.2.2.2.2.2.2.2.2 ⟨18, 19, 20⟩ (by decide) (by decide) (by decide)⟩

/-! ### The Machine

`Machine` owns the 65,536-word memory (`memory: [u32; 2^16]`), modelled as a
total function from addresses to word values; `read`/`write` are the
single-cell accessors.  The breakpoint list and the interactive debugger
only observe memory, so they are not part of the execution model. -/

structure Machine where
  mem : Nat → Nat

namespace Machine

/-- `self.memory[addr as usize]`. -/
def read (m : Machine) (addr : Nat) : Nat := m.mem addr

/-- `self.memory[addr as usize] = value`. -/
def write (m : Machine) (addr : Nat) (value : Nat) : Machine :=
  ⟨fun a => if a = addr then value else m.mem a⟩

theorem read_write (m : Machine) (a b v : Nat) :
    (m.write a v).read b = if b = a then v else m.read b := rfl

end Machine

/-- `bytemuck::cast::<u32, i32>`: reinterpret a 32-bit word as a signed
two's-complement integer. -/
def toI32 (x : Nat) : Int :=
  if x % 4294967296 < 2147483648 then (x % 4294967296 : Int)
  else (x % 4294967296 : Int) - 4294967296

/-- The fatal error paths of `Machine::run`: the `todo!("VLE is not yet
supported")`, the `Opcodes::from_u8(opcode).unwrap()` on an unknown opcode,
and the `assert_eq!` opcode guard inside `from_bytes`. -/
inductive MachineError where
  | vleNotSupported
  | unknownOpcode
  | formatViolation
deriving DecidableEq, Repr

/-- `let pc: Address = self.read(PC) as u16` — the fetch address. -/
def fetchAddr (m : Machine) : Nat := m.read PC % 65536

/-- `let inst = self.read(pc)` — the fetched instruction word. -/
def fetchWord (m : Machine) : Nat := m.read (fetchAddr m)

/-- The fetch, length-check, decode and execute stages of one iteration of
`Machine::run` (steps before the output-device check).  The VLE length check
comes first; then the `match Opcodes::from_u8(opcode)` dispatch invokes the
matching decoder and applies the instruction semantics.  Word-wise `+` and
the `i32` negation are wrapping (two's-complement) arithmetic. -/
def execInst (m : Machine) : Except MachineError Machine :=
  if byte0 (fetchWord m) % 4 = 3 then .error .vleNotSupported
  else if byte0 (fetchWord m) = ZeroPageAdd.opcode then
    match ZeroPageAdd.from_bytes (fetchWord m) with
    | some i => .ok (m.write i.out ((m.read i.lhs + m.read i.rhs) % 4294967296))
    | none => .error .formatViolation
  else if byte0 (fetchWord m) = ZeroPageNegate.opcode then
    match ZeroPageNegate.from_bytes (fetchWord m) with
    | some i =>
        .ok (m.write i.out ((4294967296 - m.read i.input % 4294967296) % 4294967296))
    | none => .error .formatViolation
  else if byte0 (fetchWord m) = ZeroPageAnd.opcode then
    match ZeroPageAnd.from_bytes (fetchWord m) with
    | some i => .ok (m.write i.out (m.read i.lhs &&& m.read i.rhs))
    | none => .error .formatViolation
  else if byte0 (fetchWord m) = ZeroPageOr.opcode then
    match ZeroPageOr.from_bytes (fetchWord m) with
    | some i => .ok (m.write i.out (m.read i.lhs ||| m.read i.rhs))
    | none => .error .formatViolation
  else if byte0 (fetchWord m) = ZeroPageXor.opcode then
    match ZeroPageXor.from_bytes (fetchWord m) with
    | some i => .ok (m.write i.out (m.read i.lhs ^^^ m.read i.rhs))
    | none => .error .formatViolation
  else if byte0 (fetchWord m) = ZeroPageImmediateLoad.opcode then
    match ZeroPageImmediateLoad.from_bytes (fetchWord m) with
    | some i => .ok (m.write i.addr i.imm)
    | none => .error .formatViolation
  else if byte0 (fetchWord m) = ZeroPageLoad.opcode then
    match ZeroPageLoad.from_bytes (fetchWord m) with
    | some i => .ok (m.write i.to' (m.read i.from'))
    | none => .error .formatViolation
  else if byte0 (fetchWord m) = ZeroPageStore.opcode then
    match ZeroPageStore.from_bytes (fetchWord m) with
    | some i => .ok (m.write i.to' (m.read i.from'))
    | none => .error .formatViolation
  else if byte0 (fetchWord m) = ZeroPageLoadIfPos.opcode then
    match ZeroPageLoadIfPos.from_bytes (fetchWord m) with
    | some i =>
        .ok (if 0 < toI32 (m.read i.cond) then m.write i.to' (m.read i.from') else m)
    | none => .error .formatViolation
  else .error .unknownOpcode

/-- The output-device check after an instruction executed: if
`self.read(WRITING) != 0`, emit `self.read(DATA) as u8` and clear the flag.
Returns the updated machine and the emitted character code, if any. -/
def outputCheck (m : Machine) : Machine × Option Nat :=
  if m.read WRITING ≠ 0 then (m.write WRITING 0, some (m.read DATA % 256))
  else (m, none)

/-- The program-counter advance at the end of an iteration:
`if pc == self.read(PC) as u16, self.write(PC, pc as u32 + length as u32)`
with `length = 1` (the only supported length). -/
def pcAdvance (pc : Nat) (m : Machine) : Machine :=
  if pc = m.read PC % 65536 then m.write PC (pc + 1) else m

/-- One full iteration of the `Machine::run` loop: execute, check the output
device, advance the program counter.  Returns the next machine state and the
emitted character, or the fatal error. -/
def step (m : Machine) : Except MachineError (Machine × Option Nat) :=
  match execInst m with
  | .error e => .error e
  | .ok m1 => .ok (pcAdvance (fetchAddr m) (outputCheck m1).1, (outputCheck m1).2)

theorem outputCheck_fst_read_writing (m : Machine) : (outputCheck m).1.read WRITING = 0 := by
  unfold outputCheck
  split
  · simp [Machine.read_write]
  · next h => simpa using h

theorem outputCheck_fst_read_of_ne (m : Machine) (a : Nat) (h : a ≠ WRITING) :
    (outputCheck m).1.read a = m.read a := by
  unfold outputCheck
  split
  · rw [Machine.read_write, if_neg h]
  · rfl

theorem outputCheck_fst_read_pc (m : Machine) : (outputCheck m).1.read PC = m.read PC :=
  outputCheck_fst_read_of_ne m PC (by simp [PC, WRITING])

theorem pcAdvance_read_of_ne (pc : Nat) (m : Machine) (a : Nat) (h : a ≠ PC) :
    (pcAdvance pc m).read a = m.read a := by
  unfold pcAdvance
  split
  · rw [Machine.read_write, if_neg h]
  · rfl

theorem outputCheck_eq_of_writing_ne (m : Machine) (h : m.read WRITING ≠ 0) :
    outputCheck m = (m.write WRITING 0, some (m.read DATA % 256)) := by
  unfold outputCheck; rw [if_pos h]

theorem outputCheck_eq_of_writing_eq (m : Machine) (h : m.read WRITING = 0) :
    outputCheck m = (m, none) := by
  unfold outputCheck; rw [if_neg (by simpa using h)]

/-- The all-zero machine state, used as a concrete evaluation point. -/
def zeroM : Machine := ⟨fun _ => 0⟩

/-- C9: at the end of every successful run-loop iteration, memory at
`WRITING` (0xFFFE) equals zero: the step either found the flag already zero
or cleared it after emitting. -/
theorem C9_writing_flag_invariant (m m2 : Machine) (o : Option Nat)
    (h : step m = .ok (m2, o)) : m2.read WRITING = 0 := by
  unfold step at h
  cases hexec : execInst m with
  | error e => rw [hexec] at h; cases h
  | ok m1 =>
      rw [hexec] at h
      simp only [Except.ok.injEq, Prod.mk.injEq] at h
      obtain ⟨h1, h2⟩ := h
      subst h1
      rw [pcAdvance_read_of_ne _ _ _ (by decide), outputCheck_fst_read_writing]

/-- Witness for C9: a concrete step of the all-zero machine ends with
`mem[WRITING] = 0`. -/
theorem C9_writing_flag_invariant_witness :
    (pcAdvance (fetchAddr zeroM) (outputCheck (zeroM.write 0 0)).1).read WRITING = 0 :=
  C9_writing_flag_invariant zeroM
    (pcAdvance (fetchAddr zeroM) (outputCheck (zeroM.write 0 0)).1)
    (outputCheck (zeroM.write 0 0)).2 rfl

/-- C2 (amended): the run loop compares the low 16 bits of `mem[PC]` (its
value truncated `as u16`) with the fetch address `pc`; if they agree the
step stores `pc + 1` into `mem[PC]`, otherwise it leaves the newly written
value in place.  (The original claim compared the full 32-bit value of
`mem[PC]` with `pc`; see the counterexample.) -/
theorem C2_pc_advance (m m1 : Machine) (h : execInst m = .ok m1) :
    ∃ m2 o, step m = .ok (m2, o) ∧
      (m1.read PC % 65536 = fetchAddr m → m2.read PC = fetchAddr m + 1) ∧
      (m1.read PC % 65536 ≠ fetchAddr m → m2.read PC = m1.read PC) := by
  refine ⟨pcAdvance (fetchAddr m) (outputCheck m1).1, (outputCheck m1).2, ?_, ?_, ?_⟩
  · unfold step; rw [h]
  · intro heq
    unfold pcAdvance
    rw [if_pos (by rw [outputCheck_fst_read_pc]; omega)]
    rw [Machine.read_write, if_pos rfl]
  · intro hne
    unfold pcAdvance
    rw [if_neg (by rw [outputCheck_fst_read_pc]; exact fun hc => hne hc.symm)]
    exact outputCheck_fst_read_pc m1

/-- Witness for C2's amended theorem, at the all-zero machine state. -/
theorem C2_pc_advance_witness :
    ∃ m2 o, step zeroM = .ok (m2, o) ∧
      ((zeroM.write 0 0).read PC % 65536 = fetchAddr zeroM →
        m2.read PC = fetchAddr zeroM + 1) ∧
      ((zeroM.write 0 0).read PC % 65536 ≠ fetchAddr zeroM →
        m2.read PC = (zeroM.write 0 0).read PC) :=
  C2_pc_advance zeroM (zeroM.write 0 0) rfl

/-- Concrete machine refuting C2 as stated: `PC` holds 0x8000, the cell at
0x8000 holds `ADD lhs=1 rhs=2 out=0` (word 66048), `mem[1] = 0x10000` and
`mem[2] = 0x8000`, so the ADD writes 0x18000 into `mem[PC]`. -/
def c2m : Machine :=
  ⟨fun a => if a = 0 then 32768 else if a = 1 then 65536 else if a = 2 then 32768
    else if a = 32768 then 66048 else 0⟩

/-- Counterexample to C2 as stated: after the instruction's semantics,
`mem[PC] = 0x18000`, which does NOT equal the fetch address `pc = 0x8000`,
so the claim requires the newly written value 0x18000 to be left in place;
but the code compares only the low 16 bits (`0x18000 as u16 == 0x8000`) and
overwrites `mem[PC]` with `pc + 1 = 0x8001`. -/
theorem C2_pc_advance_counterexample :
    (execInst c2m).toOption.map (fun m1 => m1.read PC) = some 98304 ∧
    fetchAddr c2m = 32768 ∧ (98304 ≠ 32768) ∧
    (step c2m).toOption.map (fun p => p.1.read PC) = some 32769 ∧
    (32769 ≠ 98304) := by
  refine ⟨rfl, rfl, by decide, rfl, by decide⟩

/-- C3: if memory at `WRITING` is nonzero after the instruction executes,
the step emits exactly one character, whose code is the low byte of
`mem[DATA]`, and resets `mem[WRITING]` to 0 before the next fetch; if
`mem[WRITING]` is zero after the instruction, nothing is emitted. -/
theorem C3_output_side_effect (m m1 : Machine) (h : execInst m = .ok m1) :
    (m1.read WRITING ≠ 0 →
      step m = .ok (pcAdvance (fetchAddr m) (m1.write WRITING 0),
        some (m1.read DATA % 256)) ∧
      (pcAdvance (fetchAddr m) (m1.write WRITING 0)).read WRITING = 0) ∧
    (m1.read WRITING = 0 → step m = .ok (pcAdvance (fetchAddr m) m1, none)) := by
  constructor
  · intro hw
    have hoc := outputCheck_eq_of_writing_ne m1 hw
    constructor
    · simp only [step, h, hoc]
    · rw [pcAdvance_read_of_ne _ _ _ (by decide), Machine.read_write, if_pos rfl]
  · intro hw
    have hoc := outputCheck_eq_of_writing_eq m1 hw
    simp only [step, h, hoc]

/-- Concrete machine for the C3 witness: `mem[WRITING] = 1`,
`mem[DATA] = 0x41`, and the instruction at the fetch address is an ADD that
leaves both cells untouched. -/
def c3m : Machine :=
  ⟨fun a => if a = 65534 then 1 else if a = 65535 then 65 else 0⟩

/-- Witness for C3: one step of `c3m` emits exactly the character code 0x41
and clears the flag. -/
theorem C3_output_side_effect_witness :
    (c3m.write 0 0).read WRITING ≠ 0 ∧ (c3m.write 0 0).read DATA % 256 = 65 ∧
    step c3m = .ok (pcAdvance (fetchAddr c3m) ((c3m.write 0 0).write WRITING 0),
      some ((c3m.write 0 0).read DATA % 256)) ∧
    (pcAdvance (fetchAddr c3m) ((c3m.write 0 0).write WRITING 0)).read WRITING = 0 :=
  ⟨by decide, by decide,
   ((C3_output_side_effect c3m (c3m.write 0 0) rfl).1 (by decide)).1,
   ((C3_output_side_effect c3m (c3m.write 0 0) rfl).1 (by decide)).2⟩

/-- C4: executing a NEG instruction (opcode byte 1, operands `input` in
byte 1 and `out` in byte 2 of the word) stores into `mem[out]` the
two's-complement negation `(2^32 - mem[input]) mod 2^32` of the 32-bit
value `mem[input]`.  (Wrapping semantics of the `i32` negation.) -/
theorem C4_neg_semantics (m : Machine)
    (hop : byte0 (fetchWord m) = ZeroPageNegate.opcode)
    (hval : m.read (byte1 (fetchWord m)) < 4294967296) :
    ∃ m1, execInst m = .ok m1 ∧
      m1.read (byte2 (fetchWord m)) =
        (4294967296 - m.read (byte1 (fetchWord m))) % 4294967296 := by
  have hdec : ZeroPageNegate.from_bytes (fetchWord m) =
      some ⟨byte1 (fetchWord m), byte2 (fetchWord m)⟩ := by
    unfold ZeroPageNegate.from_bytes; rw [if_pos hop]
  refine ⟨m.write (byte2 (fetchWord m))
      ((4294967296 - m.read (byte1 (fetchWord m)) % 4294967296) % 4294967296), ?_, ?_⟩
  · unfold execInst
    rw [hop]
    simp [ZeroPageAdd.opcode, ZeroPageNegate.opcode, hdec]
  · rw [Machine.read_write, if_pos rfl, Nat.mod_eq_of_lt hval]

/-- Concrete machine for the C4 witness: `PC` points at a NEG instruction
with `input = 5`, `out = 6`, and `mem[5] = 0x80000000` (the `i32::MIN`
pattern singled out by the claim). -/
def c4m : Machine :=
  ⟨fun a => if a = 0 then 32768 else if a = 32768 then 17106432
    else if a = 5 then 2147483648 else 0⟩

/-- Witness for C4: negating 0x80000000 yields 0x80000000. -/
theorem C4_neg_semantics_witness :
    c4m.read (byte1 (fetchWord c4m)) = 2147483648 ∧
    (4294967296 - c4m.read (byte1 (fetchWord c4m))) % 4294967296 = 2147483648 ∧
    ∃ m1, execInst c4m = .ok m1 ∧
      m1.read (byte2 (fetchWord c4m)) =
        (4294967296 - c4m.read (byte1 (fetchWord c4m))) % 4294967296 :=
  ⟨by decide, by decide, C4_neg_semantics c4m (by decide) (by decide)⟩

theorem isSome_decode_iff {α : Type} (c : Prop) [Decidable c] (x : α) :
    (if c then some x else none).isSome ↔ c := by split <;> simp_all

/-- C5: for every instruction kind and every 32-bit word, the kind's
decoder `from_bytes` succeeds if and only if the word's leading byte equals
the kind's opcode value (the `assert_eq!` guard fails fatally otherwise). -/
theorem C5_decode_opcode_guard :
    ∀ w : Nat, w < 4294967296 →
      ((ZeroPageAdd.from_bytes w).isSome ↔ byte0 w = ZeroPageAdd.opcode) ∧
      ((ZeroPageNegate.from_bytes w).isSome ↔ byte0 w = ZeroPageNegate.opcode) ∧
      ((ZeroPageAnd.from_bytes w).isSome ↔ byte0 w = ZeroPageAnd.opcode) ∧
      ((ZeroPageOr.from_bytes w).isSome ↔ byte0 w = ZeroPageOr.opcode) ∧
      ((ZeroPageXor.from_bytes w).isSome ↔ byte0 w = ZeroPageXor.opcode) ∧
      ((ZeroPageLoad.from_bytes w).isSome ↔ byte0 w = ZeroPageLoad.opcode) ∧
      ((ZeroPageStore.from_bytes w).isSome ↔ byte0 w = ZeroPageStore.opcode) ∧
      ((ZeroPageImmediateLoad.from_bytes w).isSome ↔
        byte0 w = ZeroPageImmediateLoad.opcode) ∧
      ((ZeroPageLoadIfPos.from_bytes w).isSome ↔ byte0 w = ZeroPageLoadIfPos.opcode) := by
  intro w _
  exact ⟨isSome_decode_iff _ _, isSome_decode_iff _ _, isSome_decode_iff _ _,
    isSome_decode_iff _ _, isSome_decode_iff _ _, isSome_decode_iff _ _,
    isSome_decode_iff _ _, isSome_decode_iff _ _, isSome_decode_iff _ _⟩

/-- Witness for C5, at the 32-bit word 0. -/
theorem C5_decode_opcode_guard_witness :
    (0 : Nat) < 4294967296 ∧
    (((ZeroPageAdd.from_bytes 0).isSome ↔ byte0 0 = ZeroPageAdd.opcode) ∧
      ((ZeroPageNegate.from_bytes 0).isSome ↔ byte0 0 = ZeroPageNegate.opcode) ∧
      ((ZeroPageAnd.from_bytes 0).isSome ↔ byte0 0 = ZeroPageAnd.opcode) ∧
      ((ZeroPageOr.from_bytes 0).isSome ↔ byte0 0 = ZeroPageOr.opcode) ∧
      ((ZeroPageXor.from_bytes 0).isSome ↔ byte0 0 = ZeroPageXor.opcode) ∧
      ((ZeroPageLoad.from_bytes 0).isSome ↔ byte0 0 = ZeroPageLoad.opcode) ∧
      ((ZeroPageStore.from_bytes 0).isSome ↔ byte0 0 = ZeroPageStore.opcode) ∧
      ((ZeroPageImmediateLoad.from_bytes 0).isSome ↔
        byte0 0 = ZeroPageImmediateLoad.opcode) ∧
      ((ZeroPageLoadIfPos.from_bytes 0).isSome ↔ byte0 0 = ZeroPageLoadIfPos.opcode)) :=
  ⟨by decide, C5_decode_opcode_guard 0 (by decide)⟩

/-- C8: whenever the fetched word's opcode byte has its two low-order bits
equal to `0b11`, the step aborts with the fatal "not supported" error before
decoding or executing anything. -/
theorem C8_vle_aborts (m : Machine) (h : byte0 (fetchWord m) % 4 = 3) :
    step m = .error .vleNotSupported := by
  have hexec : execInst m = .error .vleNotSupported := by
    unfold execInst; rw [if_pos h]
  unfold step; rw [hexec]

/-- Concrete machine for the C8 witness: every cell holds the word
0x03000000, whose opcode byte 0x03 has low bits `0b11`. -/
def c8m : Machine := ⟨fun _ => 50331648⟩

/-- Witness for C8. -/
theorem C8_vle_aborts_witness :
    byte0 (fetchWord c8m) % 4 = 3 ∧ step c8m = .error .vleNotSupported :=
  ⟨by decide, C8_vle_aborts c8m (by decide)⟩

/-! ### Bounds-checked view of the memory array for C10

`Machine::read` and `Machine::write` index `memory: [u32; 2^16]` with
`addr as usize`; Rust's slice indexing panics when the index is out of
bounds.  `memoryRead`/`memoryWrite` expose that implicit bounds check on a
list-of-words view of the array. -/

def memoryRead (memory : List Nat) (addr : Nat) : Option Nat := memory.get? addr

def memoryWrite (memory : List Nat) (addr : Nat) (value : Nat) : Option (List Nat) :=
  if addr < memory.length then some (memory.set addr value) else none

/-- C10: the memory array holds exactly 2^16 words and addresses are `u16`,
so a single-word read or write is always in bounds: the fatal out-of-bounds
path of `Machine::read`/`Machine::write` is unreachable. -/
theorem C10_single_cell_access_total (memory : List Nat) (addr value : Nat)
    (hlen : memory.length = 65536) (haddr : addr < 65536) :
    (memoryRead memory addr).isSome ∧
    memoryWrite memory addr value = some (memory.set addr value) := by
  constructor
  · unfold memoryRead
    rw [List.get?_eq_getElem?, List.getElem?_eq_getElem (by omega)]
    rfl
  · unfold memoryWrite
    rw [if_pos (by omega)]

/-- Witness for C10, on the zero-initialized 65,536-word memory. -/
theorem C10_single_cell_access_total_witness :
    (memoryRead (List.replicate 65536 0) 65535).isSome ∧
    memoryWrite (List.replicate 65536 0) 65535 7 =
      some ((List.replicate 65536 0).set 65535 7) :=
  C10_single_cell_access_total (List.replicate 65536 0) 65535 7
    (by rw [List.length_replicate]) (by decide)

/-! ### The assembler (`asm.rs`)

Source lines are modelled as `List Char` (the character sequence of a Rust
`&str`); the helpers below are executable models of the string methods the
assembler uses, restricted to the ASCII repertoire the assembly format
uses. -/

/-- `str::trim`: remove leading and trailing whitespace. -/
def trimChars (s : List Char) : List Char :=
  ((s.dropWhile Char.isWhitespace).reverse.dropWhile Char.isWhitespace).reverse

/-- `str::split(sep)`: split at every separator occurrence, keeping empty
pieces; splitting the empty string yields one empty piece. -/
def splitOnChar (sep : Char) : List Char → List (List Char)
  | [] => [[]]
  | c :: rest =>
      let r := splitOnChar sep rest
      if c = sep then [] :: r
      else (c :: r.headD []) :: r.tail

/-- `Vec::join(" ")` on the split pieces. -/
def joinSpace : List (List Char) → List Char
  | [] => []
  | [x] => x
  | x :: rest => x ++ ' ' :: joinSpace rest

/-- `char::to_digit` as used by `u64::from_str_radix`: the numeric value of
a digit character, accepted only below the radix. -/
def digitVal (radix : Nat) (c : Char) : Option Nat :=
  (if c.isDigit then some (c.toNat - 48)
   else if 'a' ≤ c ∧ c ≤ 'z' then some (c.toNat - 87)
   else if 'A' ≤ c ∧ c ≤ 'Z' then some (c.toNat - 55)
   else none).bind fun d => if d < radix then some d else none

/-- `u64::from_str_radix` / `str::parse::<u64>`: an optional leading `+`,
then at least one digit, no other characters, and the value must fit in 64
bits. -/
def parseRadix (radix : Nat) (s : List Char) : Option Nat :=
  let s := if s.head? = some '+' then s.drop 1 else s
  if s.isEmpty then none
  else (s.foldlM (fun acc c => (digitVal radix c).map fun d => acc * radix + d) 0).bind
    fun n => if n < 18446744073709551616 then some n else none

/-- The operand grammar of `asm.rs::operand`: `0x`-prefixed hexadecimal,
`:`-prefixed indirection (re-evaluated on the remainder), decimal when the
first character is an ASCII digit, otherwise a symbol-table lookup — which
yields 0 when no table is available (pass 1) and fails fatally on an
undefined symbol (pass 2). -/
def operand : List Char → Option (List (List Char × Nat)) → Option Nat
  | [], _ => none
  | c :: cs, symbols =>
      if (c :: cs).take 2 = ['0', 'x'] then parseRadix 16 ((c :: cs).drop 2)
      else if c = ':' then operand cs symbols
      else if c.isDigit then parseRadix 10 (c :: cs)
      else
        match symbols with
        | some syms => syms.lookup (c :: cs)
        | none => some 0

/-- `operand(words.clone().nth(i).unwrap(), symbols)`. -/
def opnd (words : List (List Char)) (symbols : Option (List (List Char × Nat)))
    (i : Nat) : Option Nat :=
  (words.get? i).bind fun w => operand w symbols

/-- The encoded word produced by one `add_inst` match arm: the mnemonic
selects the instruction kind, the following tokens are parsed as operands
and cast (`as u8` / `as u16`) to the field widths.  An unknown mnemonic is
the fatal "Unknown opcode" panic. -/
def encodeLine (words : List (List Char))
    (symbols : Option (List (List Char × Nat))) : Option Nat :=
  (words.get? 0).bind fun opcode =>
  if opcode = "ADD".toList then
    (opnd words symbols 1).bind fun a => (opnd words symbols 2).bind fun b =>
      (opnd words symbols 3).map fun c =>
        ZeroPageAdd.to_bytes ⟨a % 256, b % 256, c % 256⟩
  else if opcode = "NEG".toList then
    (opnd words symbols 1).bind fun a => (opnd words symbols 2).map fun b =>
      ZeroPageNegate.to_bytes ⟨a % 256, b % 256⟩
  else if opcode = "AND".toList then
    (opnd words symbols 1).bind fun a => (opnd words symbols 2).bind fun b =>
      (opnd words symbols 3).map fun c =>
        ZeroPageAnd.to_bytes ⟨a % 256, b % 256, c % 256⟩
  else if opcode = "OR".toList then
    (opnd words symbols 1).bind fun a => (opnd words symbols 2).bind fun b =>
      (opnd words symbols 3).map fun c =>
        ZeroPageOr.to_bytes ⟨a % 256, b % 256, c % 256⟩
  else if opcode = "XOR".toList then
    (opnd words symbols 1).bind fun a => (opnd words symbols 2).bind fun b =>
      (opnd words symbols 3).map fun c =>
        ZeroPageXor.to_bytes ⟨a % 256, b % 256, c % 256⟩
  else if opcode = "L".toList then
    (opnd words symbols 1).bind fun a => (opnd words symbols 2).map fun b =>
      ZeroPageLoad.to_bytes ⟨a % 65536, b % 256⟩
  else if opcode = "S".toList then
    (opnd words symbols 1).bind fun a => (opnd words symbols 2).map fun b =>
      ZeroPageStore.to_bytes ⟨a % 256, b % 65536⟩
  else if opcode = "LI".toList then
    (opnd words symbols 1).bind fun a => (opnd words symbols 2).map fun b =>
      ZeroPageImmediateLoad.to_bytes ⟨a % 256, b % 65536⟩
  else if opcode = "LP".toList then
    (opnd words symbols 1).bind fun a => (opnd words symbols 2).bind fun b =>
      (opnd words symbols 3).map fun c =>
        ZeroPageLoadIfPos.to_bytes ⟨a % 256, b % 256, c % 256⟩
  else none

/-- `asm.rs::add_inst`: parse one stripped line and append the single
encoded word (`Program::push` extends the program with `inst.to_bytes()`,
which every current kind makes one word). -/
def add_inst (line : List Char) (program : List Nat)
    (symbols : Option (List (List Char × Nat))) : Option (List Nat) :=
  (encodeLine (splitOnChar ' ' line) symbols).map fun w => program ++ [w]

/-- The fold state of both assembler passes (`asm.rs::ParseState`). -/
structure ParseState where
  symbols : List (List Char × Nat)
  program : List Nat
  breakpoints : List Nat
deriving DecidableEq, Repr

/-- `0x8000 + program.len() as Address` in `u16` arithmetic: the absolute
address of the next instruction to be emitted. -/
def nextAddr (n : Nat) : Nat := (32768 + n % 65536) % 65536

/-- `line.split(' ').next().unwrap()` on the trimmed line: the token
inspected for a trailing `:`. -/
def labelTok (line : List Char) : List Char :=
  (splitOnChar ' ' (trimChars line)).headD []

/-- One line of pass 1: skip empty lines; record a `label:` token in the
symbol table and strip it; record a `~` marker as a breakpoint and strip
it; then parse the instruction with no symbol table. -/
def pass1Line (state : ParseState) (line : List Char) : Option ParseState :=
  if line.isEmpty then some state
  else
    let l1 := trimChars line
    let syms := if (labelTok line).getLast? = some ':' then
        ((labelTok line).dropLast, nextAddr state.program.length) :: state.symbols
      else state.symbols
    let l2 := if (labelTok line).getLast? = some ':' then
        trimChars (joinSpace ((splitOnChar ' ' l1).drop 1))
      else l1
    let bps := if l2.head? = some '~' then
        state.breakpoints ++ [nextAddr state.program.length]
      else state.breakpoints
    let l3 := if l2.head? = some '~' then trimChars (l2.drop 1) else l2
    (add_inst l3 state.program none).map fun p => ⟨syms, p, bps⟩

/-- One line of pass 2: strip labels and markers again without recording
them, and parse the instruction with the pass-1 symbol table. -/
def pass2Line (state : ParseState) (line : List Char) : Option ParseState :=
  if line.isEmpty then some state
  else
    let l1 := trimChars line
    let l2 := if (labelTok line).getLast? = some ':' then
        trimChars (joinSpace ((splitOnChar ' ' l1).drop 1))
      else l1
    let l3 := if l2.head? = some '~' then trimChars (l2.drop 1) else l2
    (add_inst l3 state.program (some state.symbols)).map
      fun p => ⟨state.symbols, p, state.breakpoints⟩

/-- `asm.rs::assemble` on the list of source lines: pass 1 builds the
symbol table and breakpoint list, pass 2 re-parses with the symbol table
and emits the program. -/
def assembleLines (lines : List (List Char)) : Option (List Nat × List Nat) :=
  (lines.foldlM pass1Line ⟨[], [], []⟩).bind fun st1 =>
  (lines.foldlM pass2Line ⟨st1.symbols, [], []⟩).map fun st2 =>
  (st2.program, st1.breakpoints)

/-- `asm.rs::assemble`: split the source text on newlines and run both
passes. -/
def assemble (source : List Char) : Option (List Nat × List Nat) :=
  assembleLines (splitOnChar '\n' source)

theorem pass1Line_blank (s : ParseState) : pass1Line s [] = some s := rfl

theorem pass2Line_blank (s : ParseState) : pass2Line s [] = some s := rfl

theorem foldlM_middle_blank (f : ParseState → List Char → Option ParseState)
    (hf : ∀ s, f s [] = some s) (xs ys : List (List Char)) (s : ParseState) :
    (xs ++ [] :: ys).foldlM f s = (xs ++ ys).foldlM f s := by
  induction xs generalizing s with
  | nil =>
      simp only [List.nil_append, List.foldlM_cons, hf]
      rfl
  | cons x xs ih =>
      simp only [List.cons_append, List.foldlM_cons]
      cases hx : f s x with
      | none => rfl
      | some s1 => simpa using ih s1

/-- C7: blank lines are ignored by the assembler — a blank line contributes
no instruction, no symbol and no breakpoint to either pass (the pass folds
are unchanged by inserting one), and does not cause assembly to fail. -/
theorem C7_blank_lines_ignored (xs ys : List (List Char)) (s : ParseState) :
    (xs ++ [] :: ys).foldlM pass1Line s = (xs ++ ys).foldlM pass1Line s ∧
    (xs ++ [] :: ys).foldlM pass2Line s = (xs ++ ys).foldlM pass2Line s ∧
    assembleLines (xs ++ [] :: ys) = assembleLines (xs ++ ys) := by
  refine ⟨foldlM_middle_blank _ pass1Line_blank xs ys s,
    foldlM_middle_blank _ pass2Line_blank xs ys s, ?_⟩
  unfold assembleLines
  rw [foldlM_middle_blank _ pass1Line_blank]
  refine congrArg _ ?_
  funext st1
  rw [foldlM_middle_blank _ pass2Line_blank]

/-! ### Pass-1 symbol recording and resolution (C6) -/

/-- The source line defines the label `name`: the line is non-empty and its
first whitespace-delimited token (after trimming) is `name` followed by a
`:`. -/
def definesLabel (line name : List Char) : Prop :=
  line.isEmpty = false ∧ (labelTok line).getLast? = some ':' ∧
    (labelTok line).dropLast = name

instance (line name : List Char) : Decidable (definesLabel line name) := by
  unfold definesLabel; infer_instance

theorem lookup_cons_self {β : Type} (k : List Char) (v : β)
    (rest : List (List Char × β)) : List.lookup k ((k, v) :: rest) = some v := by
  simp [List.lookup]

theorem lookup_cons_ne {β : Type} (k a : List Char) (v : β)
    (rest : List (List Char × β)) (h : a ≠ k) :
    List.lookup a ((k, v) :: rest) = List.lookup a rest := by
  have hb : (a == k) = false := beq_eq_false_iff_ne.mpr h
  simp [List.lookup, hb]

theorem add_inst_length (line : List Char) (program : List Nat)
    (symbols : Option (List (List Char × Nat))) (p' : List Nat)
    (h : add_inst line program symbols = some p') :
    p'.length = program.length + 1 := by
  unfold add_inst at h
  rw [Option.map_eq_some'] at h
  obtain ⟨w, hw, rfl⟩ := h
  simp

theorem pass1Line_length (state s' : ParseState) (line : List Char)
    (h : pass1Line state line = some s') :
    s'.program.length = state.program.length + (if line.isEmpty then 0 else 1) := by
  unfold pass1Line at h
  split at h
  · next he =>
      simp only [Option.some.injEq] at h
      subst h
      rw [if_pos he]
      rfl
  · next he =>
      simp only [Option.map_eq_some'] at h
      obtain ⟨p, hp, rfl⟩ := h
      rw [if_neg he]
      exact add_inst_length _ _ _ _ hp

theorem pass1Line_lookup (state s' : ParseState) (line name : List Char)
    (h : pass1Line state line = some s') :
    s'.symbols.lookup name =
      if definesLabel line name then some (nextAddr state.program.length)
      else state.symbols.lookup name := by
  unfold pass1Line at h
  split at h
  · next he =>
      simp only [Option.some.injEq] at h
      subst h
      rw [if_neg (fun hd => by rw [hd.1] at he; exact Bool.false_ne_true he)]
  · next he =>
      rw [Bool.not_eq_true] at he
      simp only [Option.map_eq_some'] at h
      obtain ⟨p, hp, rfl⟩ := h
      by_cases hlab : (labelTok line).getLast? = some ':'
      · simp only [hlab, if_true]
        by_cases hname : (labelTok line).dropLast = name
        · rw [hname, lookup_cons_self, if_pos ⟨he, hlab, hname⟩]
        · rw [lookup_cons_ne _ _ _ _ (fun hc => hname hc.symm),
            if_neg (fun hd => hname hd.2.2)]
      · simp only [hlab, if_false]
        rw [if_neg (fun hd => hlab hd.2.1)]

theorem pass1_fold_preserves_lookup (lines : List (List Char)) (s st : ParseState)
    (name : List Char)
    (hnd : ∀ l ∈ lines, ¬ definesLabel l name)
    (h : lines.foldlM pass1Line s = some st) :
    st.symbols.lookup name = s.symbols.lookup name := by
  induction lines generalizing s with
  | nil =>
      simp only [List.foldlM_nil] at h
      cases h
      rfl
  | cons l rest ih =>
      rw [List.foldlM_cons] at h
      cases h1 : pass1Line s l with
      | none => rw [h1] at h; cases h
      | some s1 =>
          rw [h1] at h
          replace h : rest.foldlM pass1Line s1 = some st := h
          rw [ih s1 (fun l' hl' => hnd l' (List.mem_cons_of_mem _ hl')) h,
            pass1Line_lookup s s1 l name h1, if_neg (hnd l (List.mem_cons_self _ _))]

theorem pass1_fold_lookup (lines : List (List Char)) (s st : ParseState) (i : Nat)
    (name : List Char)
    (h : lines.foldlM pass1Line s = some st)
    (hi : i < lines.length)
    (hdef : definesLabel (lines.get ⟨i, hi⟩) name)
    (huniq : ∀ j (hj : j < lines.length), definesLabel (lines.get ⟨j, hj⟩) name → j = i) :
    st.symbols.lookup name =
      some (nextAddr (s.program.length +
        ((lines.take i).filter (fun l => !l.isEmpty)).length)) := by
  induction lines generalizing s i with
  | nil => exact absurd hi (by simp)
  | cons l rest ih =>
      rw [List.foldlM_cons] at h
      cases h1 : pass1Line s l with
      | none => rw [h1] at h; cases h
      | some s1 =>
          rw [h1] at h
          replace h : rest.foldlM pass1Line s1 = some st := h
          cases i with
          | zero =>
              have hrest : ∀ l' ∈ rest, ¬ definesLabel l' name := by
                intro l' hl' hd
                obtain ⟨⟨j, hj⟩, hjl⟩ := List.mem_iff_get.mp hl'
                have : j + 1 = 0 := huniq (j + 1) (by simpa using Nat.succ_lt_succ hj)
                  (by rw [show (l :: rest).get ⟨j + 1, _⟩ = rest.get ⟨j, hj⟩ from rfl, hjl]
                      exact hd)
                omega
              have hdefl : definesLabel l name := hdef
              rw [pass1_fold_preserves_lookup rest s1 st name hrest h,
                pass1Line_lookup s s1 l name h1, if_pos hdefl]
              simp
          | succ j =>
              have hj : j < rest.length := by simpa using hi
              have hdef' : definesLabel (rest.get ⟨j, hj⟩) name := hdef
              have huniq' : ∀ k (hk : k < rest.length),
                  definesLabel (rest.get ⟨k, hk⟩) name → k = j := by
                intro k hk hd
                have : k + 1 = j + 1 :=
                  huniq (k + 1) (by simpa using Nat.succ_lt_succ hk) hd
                omega
              have hlen := pass1Line_length s s1 l h1
              rw [ih s1 j h hj hdef' huniq']
              congr 2
              rw [List.take_succ_cons, List.filter_cons]
              by_cases hle : l.isEmpty = true
              · rw [if_pos hle] at hlen
                have hnil : l = [] := by simpa using hle
                subst hnil
                simp
                omega
              · rw [if_neg hle] at hlen
                have hf : l.isEmpty = false := by
                  revert hle; cases l.isEmpty <;> simp
                simp [hf]
                omega

theorem operand_bare_ident (name : List Char) (syms : List (List Char × Nat))
    (h0x : name.take 2 ≠ ['0', 'x'])
    (hcolon : name.headD ' ' ≠ ':')
    (hdigit : (name.headD ' ').isDigit = false)
    (hne : name ≠ []) :
    operand name (some syms) = syms.lookup name := by
  cases name with
  | nil => exact absurd rfl hne
  | cons c cs =>
      simp only [List.headD_cons] at hcolon hdigit
      simp only [operand]
      rw [if_neg h0x, if_neg hcolon, if_neg (by simp [hdigit])]

/-- C6: for every source program accepted by pass 1 and every label defined
on exactly one line `i` — whether before or after its first use — the
symbol table records the label at the absolute address `0x8000 + (number of
instructions emitted before line i)` (each non-empty line emits exactly one
instruction), and pass-2 operand evaluation resolves every bare-identifier
operand equal to the label name to exactly that address.  The count bound
keeps the address within the `u16` address space. -/
theorem C6_label_resolution (lines : List (List Char)) (st : ParseState) (i : Nat)
    (name : List Char)
    (hrun : lines.foldlM pass1Line ⟨[], [], []⟩ = some st)
    (hi : i < lines.length)
    (hdef : definesLabel (lines.get ⟨i, hi⟩) name)
    (huniq : ∀ j (hj : j < lines.length), definesLabel (lines.get ⟨j, hj⟩) name → j = i)
    (hsmall : ((lines.take i).filter (fun l => !l.isEmpty)).length < 32768)
    (h0x : name.take 2 ≠ ['0', 'x'])
    (hcolon : name.headD ' ' ≠ ':')
    (hdigit : (name.headD ' ').isDigit = false)
    (hne : name ≠ []) :
    operand name (some st.symbols) =
      some (32768 + ((lines.take i).filter (fun l => !l.isEmpty)).length) := by
  rw [operand_bare_ident name st.symbols h0x hcolon hdigit hne,
    pass1_fold_lookup lines ⟨[], [], []⟩ st i name hrun hi hdef huniq]
  congr 1
  have h0 : (⟨[], [], []⟩ : ParseState).program.length = 0 := rfl
  rw [h0]
  unfold nextAddr
  omega

/-- Concrete two-line program for the C6 witness: the label `loop` is used
on line 0 (a forward reference) and defined on line 1. -/
def c6lines : List (List Char) := ["LI 0 loop".toList, "loop: LI 1 2".toList]

/-- The pass-1 result state of `c6lines`: `loop` maps to 0x8001 = 32769 and
the two `LI` words have been counted. -/
def c6st : ParseState :=
  ⟨[("loop".toList, 32769)], [167772160, 167838208], []⟩

/-- Witness for C6, on the concrete forward-reference program `c6lines`. -/
theorem C6_label_resolution_witness :
    operand "loop".toList (some c6st.symbols) =
      some (32768 + ((c6lines.take 1).filter (fun l => !l.isEmpty)).length) :=
  C6_label_resolution c6lines c6st 1 "loop".toList (by decide) (by decide) (by decide)
    (by decide) (by decide) (by decide) (by decide) (by decide) (by decide)

end Rufus
